import Mathlib

/-!
Verification of the FieldKit asset-index core: a shallow embedding of the
in-memory repository (MemStorage), the on-demand file scanner (FileScanner),
the live file watcher (FileWatcher) and the HTTP route handlers that drive
them, together with proofs settling the frozen specification claims.

Modelling conventions:
* JavaScript strings are modelled by Lean String; the string operations the
  source uses (startsWith, includes, slice, split, toLowerCase, endsWith) are
  implemented over String.data, faithful to their JS semantics on ASCII input.
* Node path helpers (extname, basename, dirname, join) are modelled with the
  POSIX separator.
* Timestamps (Date, mtime, birthtime) are modelled as naturals; their ISO
  rendering is modelled as the decimal rendering.
* JS Map is modelled as an association list in insertion order: set on an
  existing key replaces in place, set on a fresh key appends, values()
  enumerates in insertion order.
* Async functions are pure state transformers; filesystem trees are explicit
  values; the thumbnail generator is an oracle parameter.
-/

namespace FieldKit

/-- JS String.prototype.toLowerCase (ASCII). -/
def jsToLower (s : String) : String := ⟨s.data.map Char.toLower⟩

/-- JS String.prototype.startsWith. -/
def jsStartsWith (s pre : String) : Bool := pre.data.isPrefixOf s.data

/-- JS String.prototype.endsWith. -/
def jsEndsWith (s suf : String) : Bool := suf.data.isSuffixOf s.data

/-- JS String.prototype.includes (substring containment). -/
def jsIncludes (s sub : String) : Bool := decide (sub.data <:+: s.data)

/-- JS String.prototype.slice with one argument (drop the first n chars). -/
def jsSliceFrom (s : String) (n : Nat) : String := ⟨s.data.drop n⟩

/-- Split a character list at every occurrence of the separator c;
always returns a nonempty list of (possibly empty) segments, like
JS String.prototype.split with a single-character separator. -/
def splitSegs (c : Char) : List Char → List (List Char)
  | [] => [[]]
  | x :: xs =>
    match splitSegs c xs with
    | [] => [[]]
    | h :: t => if x = c then [] :: h :: t else (x :: h) :: t

/-- JS String.prototype.split with a single-character separator. -/
def jsSplit (s : String) (c : Char) : List String :=
  (splitSegs c s.data).map (fun l => ⟨l⟩)

/-- Rejoin segments with the separator; inverse-direction helper used by the
dirname model. -/
def joinSegs : List String → String
  | [] => ""
  | [s] => s
  | s :: rest => s ++ "/" ++ joinSegs rest

/-- Node path.basename (no trailing-separator input expected). -/
def jsBasename (p : String) : String := (jsSplit p '/').getLastD p

/-- Node path.basename(p, ext): basename with a known suffix stripped. -/
def jsBasenameExt (p ext : String) : String :=
  let b := jsBasename p
  if b ≠ ext ∧ jsEndsWith b ext then ⟨b.data.take (b.data.length - ext.data.length)⟩ else b

/-- Node path.extname: the extension of the last path component, empty when
the component has no dot or only a leading dot. -/
def extname (p : String) : String :=
  let b := jsBasename p
  if b = "." ∨ b = ".." then "" else
  match jsSplit b '.' with
  | [] => ""
  | [_] => ""
  | "" :: rest => if rest.length ≤ 1 then "" else "." ++ rest.getLastD ""
  | parts => "." ++ parts.getLastD ""

/-- Node path.dirname (as used on plain file paths). -/
def jsDirname (p : String) : String :=
  match (jsSplit p '/').dropLast with
  | [] => "."
  | [""] => "/"
  | init => joinSegs init

/-- Node path.join for a directory and a relative entry name. -/
def jsJoin (dir name : String) : String := dir ++ "/" ++ name

/-- JS truthiness of an optional string request field: undefined and the
empty string are falsy. -/
def jsTruthy : Option String → Bool
  | none => false
  | some s => if s = "" then false else true

/-- JS x || null on an optional string. -/
def jsOrNullStr : Option String → Option String
  | some s => if s = "" then none else some s
  | none => none

/-- JS x || null on an optional numeric id (0 is falsy). -/
def jsOrNullNat : Option Nat → Option Nat
  | some n => if n = 0 then none else some n
  | none => none

/-- JS Array.prototype.includes on a string list. -/
def listHas (l : List String) (s : String) : Bool := l.any (fun x => x = s)

/-! ### Data model (shared/schema.ts) -/

/-- Result of fs.stat for a regular file: the fields the source reads. -/
structure Stats where
  size : Nat
  mtime : Nat
  birthtime : Nat
deriving Repr, DecidableEq

/-- A row of the assets table (shared/schema.ts). -/
structure Asset where
  id : Nat
  filename : String
  filepath : String
  filesize : Nat
  filetype : String
  thumbnailPath : Option String
  tags : List String
  metadata : Option String
  lastModified : Nat
  createdAt : Nat
deriving Repr, DecidableEq

/-- InsertAsset (insertAssetSchema: assets minus id and createdAt; the
nullable/defaulted columns are optional). -/
structure InsertAsset where
  filename : String
  filepath : String
  filesize : Nat
  filetype : String
  thumbnailPath : Option String := none
  tags : Option (List String) := none
  metadata : Option String := none
  lastModified : Nat
deriving Repr, DecidableEq

/-- UpdateAsset (updateAssetSchema: assets minus id, filepath, createdAt, all
fields optional). The outer Option marks whether the key is present in the
optional update object. -/
structure UpdateAsset where
  filename : Option String := none
  filesize : Option Nat := none
  filetype : Option String := none
  thumbnailPath : Option (Option String) := none
  tags : Option (List String) := none
  metadata : Option (Option String) := none
  lastModified : Option Nat := none
deriving Repr, DecidableEq

/-- A row of the folders table (shared/schema.ts). -/
structure Folder where
  id : Nat
  path : String
  name : String
  parentId : Option Nat
  isWatched : Bool
  lastScanned : Option Nat
deriving Repr, DecidableEq

/-- InsertFolder (insertFolderSchema: folders minus id). -/
structure InsertFolder where
  path : String
  name : String
  parentId : Option Nat := none
  isWatched : Option Bool := none
  lastScanned : Option Nat := none
deriving Repr, DecidableEq

/-- Partial InsertFolder, as accepted by updateFolder. The outer Option marks
key presence in the optional update object. -/
structure UpdateFolder where
  path : Option String := none
  name : Option String := none
  parentId : Option (Option Nat) := none
  isWatched : Option Bool := none
  lastScanned : Option (Option Nat) := none
deriving Repr, DecidableEq

/-! ### JS Map operations (insertion-ordered association lists) -/

/-- Map.prototype.get. -/
def mapGet (m : List (Nat × α)) (k : Nat) : Option α :=
  (m.find? (fun p => p.1 = k)).map Prod.snd

/-- Map.prototype.set: replace in place when the key exists, append otherwise. -/
def mapSet (m : List (Nat × α)) (k : Nat) (v : α) : List (Nat × α) :=
  if m.any (fun p => p.1 = k) then
    m.map (fun p => if p.1 = k then (k, v) else p)
  else m ++ [(k, v)]

/-- Map.prototype.delete: the boolean tells whether the key was present. -/
def mapDelete (m : List (Nat × α)) (k : Nat) : Bool × List (Nat × α) :=
  (m.any (fun p => p.1 = k), m.filter (fun p => ¬ (p.1 = k)))

/-! ### MemStorage (server/storage.ts) -/

/-- The in-memory repository state of MemStorage. -/
structure MemStorage where
  assets : List (Nat × Asset)
  folders : List (Nat × Folder)
  currentAssetId : Nat
  currentFolderId : Nat
deriving Repr, DecidableEq

/-- A MemStorage as built by the constructor without demo data. -/
def emptyStorage : MemStorage :=
  { assets := [], folders := [], currentAssetId := 1, currentFolderId := 1 }

/-- MemStorage.getAssets. -/
def getAssets (st : MemStorage) : List Asset := st.assets.map Prod.snd

/-- MemStorage.getAsset. -/
def getAsset (st : MemStorage) (id : Nat) : Option Asset := mapGet st.assets id

/-- MemStorage.getAssetByPath. -/
def getAssetByPath (st : MemStorage) (filepath : String) : Option Asset :=
  (getAssets st).find? (fun asset => asset.filepath = filepath)

/-- MemStorage.createAsset: assigns the next id and stores the record,
applying the JS-falsy defaults of the source. -/
def createAsset (st : MemStorage) (insertAsset : InsertAsset) (now : Nat) :
    Asset × MemStorage :=
  let id := st.currentAssetId
  let asset : Asset :=
    { id := id
      filename := insertAsset.filename
      filepath := insertAsset.filepath
      filesize := insertAsset.filesize
      filetype := insertAsset.filetype
      thumbnailPath := jsOrNullStr insertAsset.thumbnailPath
      tags := insertAsset.tags.getD []
      metadata := jsOrNullStr insertAsset.metadata
      lastModified := insertAsset.lastModified
      createdAt := now }
  (asset, { st with assets := mapSet st.assets id asset, currentAssetId := id + 1 })

/-- The object spread of an optional field update over an Asset. -/
def applyAssetUpdate (a : Asset) (u : UpdateAsset) : Asset :=
  { a with
    filename := u.filename.getD a.filename
    filesize := u.filesize.getD a.filesize
    filetype := u.filetype.getD a.filetype
    thumbnailPath := u.thumbnailPath.getD a.thumbnailPath
    tags := u.tags.getD a.tags
    metadata := u.metadata.getD a.metadata
    lastModified := u.lastModified.getD a.lastModified }

/-- MemStorage.updateAsset. -/
def updateAsset (st : MemStorage) (id : Nat) (updates : UpdateAsset) :
    Option Asset × MemStorage :=
  match mapGet st.assets id with
  | none => (none, st)
  | some asset =>
    let updatedAsset := applyAssetUpdate asset updates
    (some updatedAsset, { st with assets := mapSet st.assets id updatedAsset })

/-- MemStorage.deleteAsset. -/
def deleteAsset (st : MemStorage) (id : Nat) : Bool × MemStorage :=
  let (found, m) := mapDelete st.assets id
  (found, { st with assets := m })

/-- MemStorage.getFolders. -/
def getFolders (st : MemStorage) : List Folder := st.folders.map Prod.snd

/-- MemStorage.getFolderByPath. -/
def getFolderByPath (st : MemStorage) (path : String) : Option Folder :=
  (getFolders st).find? (fun folder => folder.path = path)

/-- MemStorage.getSubfolders, first variant (storage.ts:116-120): every
folder whose path has parentPath as a strict string prefix. -/
def getSubfoldersV1 (st : MemStorage) (parentPath : String) : List Folder :=
  (getFolders st).filter (fun folder =>
    jsStartsWith folder.path parentPath ∧ folder.path ≠ parentPath)

/-- MemStorage.getSubfolders, second variant (storage.ts:330-339): watched
folders whose path extends parentPath with no separator in the remainder
after dropping length+1 characters. -/
def getSubfoldersV2 (st : MemStorage) (parentPath : String) : List Folder :=
  (getFolders st).filter (fun folder =>
    let relativePath := jsSliceFrom folder.path (parentPath.length + 1)
    jsStartsWith folder.path parentPath ∧ folder.path ≠ parentPath ∧
      ¬ jsIncludes relativePath "/" ∧ folder.isWatched)

/-- MemStorage.createFolder. -/
def createFolder (st : MemStorage) (insertFolder : InsertFolder) :
    Folder × MemStorage :=
  let id := st.currentFolderId
  let folder : Folder :=
    { id := id
      path := insertFolder.path
      name := insertFolder.name
      parentId := jsOrNullNat insertFolder.parentId
      isWatched := insertFolder.isWatched.getD true
      lastScanned := insertFolder.lastScanned }
  (folder, { st with folders := mapSet st.folders id folder, currentFolderId := id + 1 })

/-- The object spread of an optional field update over a Folder. -/
def applyFolderUpdate (f : Folder) (u : UpdateFolder) : Folder :=
  { f with
    path := u.path.getD f.path
    name := u.name.getD f.name
    parentId := u.parentId.getD f.parentId
    isWatched := u.isWatched.getD f.isWatched
    lastScanned := u.lastScanned.getD f.lastScanned }

/-- MemStorage.updateFolder. -/
def updateFolder (st : MemStorage) (id : Nat) (updates : UpdateFolder) :
    Option Folder × MemStorage :=
  match mapGet st.folders id with
  | none => (none, st)
  | some folder =>
    let updatedFolder := applyFolderUpdate folder updates
    (some updatedFolder, { st with folders := mapSet st.folders id updatedFolder })

/-- MemStorage.deleteFolder. -/
def deleteFolder (st : MemStorage) (id : Nat) : Bool × MemStorage :=
  let (found, m) := mapDelete st.folders id
  (found, { st with folders := m })

/-! ### Filesystem model -/

/-- A filesystem entry: a regular file with its stat data, or a directory
with its entries in readdir order. -/
inductive FSTree where
  | file (name : String) (stats : Stats) : FSTree
  | dir (name : String) (children : List FSTree) : FSTree
deriving Repr

/-! ### Supported-format sets -/

/-- FileScanner.supportedExtensions (server/file-scanner.ts:11). -/
def supportedExtensions : List String :=
  [".obj", ".fbx", ".gltf", ".glb", ".blend", ".ma", ".mb", ".max", ".c4d"]

/-- SUPPORTED_3D_FORMATS (shared/schema.ts). -/
def SUPPORTED_3D_FORMATS : List String :=
  [".obj", ".fbx", ".gltf", ".glb", ".usd", ".usda", ".usdc",
   ".blend", ".ma", ".mb", ".hip", ".hiplc", ".uasset"]

/-- The on-demand scanner's per-file acceptance test
(server/file-scanner.ts:69-71), applied to the entry name. -/
def scannerFileSupported (item : String) : Bool :=
  listHas supportedExtensions (jsToLower (extname item))

/-- FileWatcher.is3DFile (server/storage.ts:624-627). -/
def is3DFile (filePath : String) : Bool :=
  listHas SUPPORTED_3D_FORMATS (jsToLower (extname filePath))

/-- The extension alternatives of the assets-from-path route regex. -/
def routeRegexExts : List String := [".blend", ".glb", ".gltf", ".fbx", ".obj"]

/-- The assets-from-path route regex test on an entry name: the name ends,
case-insensitively, in one of the five listed dotted extensions. -/
def routeRegexTest (name : String) : Bool :=
  routeRegexExts.any (fun e => jsEndsWith (jsToLower name) e)

/-! ### FileScanner (server/file-scanner.ts) -/

/-- FileScanner.shouldIgnoreDirectory. -/
def ignoredDirs : List String :=
  ["node_modules", ".git", ".svn", "temp", "tmp", "cache",
   "build", "dist", "output", ".vscode", ".idea", "thumbs"]

/-- FileScanner.shouldIgnoreDirectory. -/
def shouldIgnoreDirectory (name : String) : Bool :=
  listHas ignoredDirs (jsToLower name)

/-- JS Set.prototype.add on an insertion-ordered tag list. -/
def addTag (tags : List String) (t : String) : List String :=
  if listHas tags t then tags else tags ++ [t]

/-- The guarded tag additions of FileScanner.generateTagsFromPath, in source
order, as condition-tag pairs. -/
def tagRules (filePath : String) (filename : String) : List (Bool × String) :=
  let ext := jsToLower (extname filePath)
  let pathParts := jsSplit (jsToLower filePath) '/'
  let partHas := fun (s : String) => pathParts.any (fun part => jsIncludes part s)
  let lowerFilename := jsToLower filename
  [ (decide (ext = ".fbx"), "fbx"),
    (decide (ext = ".obj"), "obj"),
    (decide (ext = ".blend"), "blender"),
    (decide (ext = ".gltf") || decide (ext = ".glb"), "gltf"),
    (decide (ext = ".ma") || decide (ext = ".mb"), "maya"),
    (partHas "character", "character"),
    (partHas "environment", "environment"),
    (partHas "vehicle", "vehicle"),
    (partHas "building", "building"),
    (partHas "prop", "prop"),
    (partHas "weapon", "weapon"),
    (partHas "texture", "textured"),
    (partHas "anim", "animation"),
    (partHas "rig", "rigged"),
    (jsIncludes lowerFilename "low", "lowpoly"),
    (jsIncludes lowerFilename "high", "highpoly"),
    (jsIncludes lowerFilename "rig", "rigged"),
    (jsIncludes lowerFilename "anim", "animation"),
    (jsIncludes lowerFilename "_v" || jsIncludes lowerFilename "version", "versioned") ]

/-- FileScanner.generateTagsFromPath: run the guarded additions over an
initially empty set, returning insertion order (Array.from of the Set). -/
def generateTagsFromPath (filePath : String) (filename : String) : List String :=
  (tagRules filePath filename).foldl
    (fun acc r => if r.1 then addTag acc r.2 else acc) []

/-- The JSON metadata blob built by FileScanner.createAssetFromFile. -/
def scannerMetadata (stats : Stats) (filePath : String) : String :=
  "\x7b\"createdAt\":\"" ++ toString stats.birthtime ++
    "\",\"modifiedAt\":\"" ++ toString stats.mtime ++
    "\",\"directory\":\"" ++ jsDirname filePath ++
    "\",\"estimated\":true\x7d"

/-- FileScanner.createAssetFromFile. -/
def createAssetFromFile (filePath : String) (stats : Stats) : InsertAsset :=
  let filename := jsBasename filePath
  let ext := jsToLower (extname filename)
  let nameWithoutExt := jsBasenameExt filename ext
  { filename := filename
    filepath := filePath
    filesize := stats.size
    filetype := ext
    lastModified := stats.mtime
    tags := some (generateTagsFromPath filePath nameWithoutExt)
    metadata := some (scannerMetadata stats filePath) }

/-- Ensure a Folder row exists for a directory discovered by the scanner
(server/file-scanner.ts:54-64). -/
def ensureFolderScanner (st : MemStorage) (fullPath name currentPath : String)
    (now : Nat) : MemStorage :=
  match getFolderByPath st fullPath with
  | some _ => st
  | none =>
    let parentFolder := getFolderByPath st currentPath
    (createFolder st
      { path := fullPath
        name := name
        parentId := parentFolder.map Folder.id
        isWatched := some false
        lastScanned := some now }).2

/-- FileScanner.scanRecursive over the modelled directory entries: the
depth guard is re-checked on each loop step, which is equivalent to the
source's single check per directory because depth is constant across the
steps of one directory. Returns the storage (folders created as a side
effect) and the discovered InsertAssets in traversal order. -/
def scanRecursive (entries : List FSTree) (currentPath : String) (depth : Nat)
    (st : MemStorage) (now : Nat) : MemStorage × List InsertAsset :=
  if depth > 10 then (st, []) else
  match entries with
  | [] => (st, [])
  | FSTree.dir name children :: rest =>
    if ¬ jsStartsWith name "." ∧ ¬ shouldIgnoreDirectory name then
      let fullPath := jsJoin currentPath name
      let st1 := ensureFolderScanner st fullPath name currentPath now
      let (st2, as1) := scanRecursive children fullPath (depth + 1) st1 now
      let (st3, as2) := scanRecursive rest currentPath depth st2 now
      (st3, as1 ++ as2)
    else
      scanRecursive rest currentPath depth st now
  | FSTree.file name stats :: rest =>
    let fullPath := jsJoin currentPath name
    let here := if scannerFileSupported name then [createAssetFromFile fullPath stats] else []
    let (st1, as2) := scanRecursive rest currentPath depth st now
    (st1, here ++ as2)
termination_by sizeOf entries
decreasing_by all_goals (simp; try omega)

/-- FileScanner.scanFolder: ensure the root folder row, then walk. -/
def fileScannerScanFolder (folderPath : String) (entries : List FSTree)
    (st : MemStorage) (now : Nat) : MemStorage × List InsertAsset :=
  let st0 :=
    match getFolderByPath st folderPath with
    | some _ => st
    | none =>
      (createFolder st
        { path := folderPath
          name := jsBasename folderPath
          parentId := none
          isWatched := some true
          lastScanned := some now }).2
  scanRecursive entries folderPath 0 st0 now

/-! ### FileWatcher (server/storage.ts:477-641) -/

/-- The JSON metadata blob built by FileWatcher.processAsset on create. -/
def watcherMetadata (filePath ext : String) : String :=
  "\x7b\"directory\":\"" ++ jsDirname filePath ++
    "\",\"extension\":\"" ++ ext ++ "\"\x7d"

/-- FileWatcher.processAsset: the upsert policy. The thumbnail generator is
an oracle parameter thumbOf. -/
def processAsset (st : MemStorage) (filePath : String) (stats : Stats)
    (thumbOf : String → Option String) (now : Nat) : MemStorage :=
  let ext := jsToLower (extname filePath)
  match getAssetByPath st filePath with
  | some asset =>
    if asset.lastModified < stats.mtime then
      (updateAsset st asset.id
        { filesize := some stats.size
          lastModified := some stats.mtime
          thumbnailPath := some (thumbOf filePath) }).2
    else st
  | none =>
    (createAsset st
      { filename := jsBasename filePath
        filepath := filePath
        filesize := stats.size
        filetype := ext
        thumbnailPath := thumbOf filePath
        tags := some []
        metadata := some (watcherMetadata filePath ext)
        lastModified := stats.mtime } now).2

/-- FileWatcher.scanFolder (server/storage.ts:552-582): the watcher's own
recursive walk, with no depth bound and no ignore filtering. -/
def watcherScanFolder (entries : List FSTree) (folderPath : String)
    (st : MemStorage) (thumbOf : String → Option String) (now : Nat) : MemStorage :=
  match entries with
  | [] => st
  | FSTree.dir name children :: rest =>
    let fullPath := jsJoin folderPath name
    let st1 :=
      match getFolderByPath st fullPath with
      | some _ => st
      | none =>
        let parentFolder := getFolderByPath st folderPath
        (createFolder st
          { path := fullPath
            name := name
            parentId := parentFolder.map Folder.id
            isWatched := some false
            lastScanned := some now }).2
    let st2 := watcherScanFolder children fullPath st1 thumbOf now
    watcherScanFolder rest folderPath st2 thumbOf now
  | FSTree.file name stats :: rest =>
    let fullPath := jsJoin folderPath name
    let st1 := if is3DFile fullPath then processAsset st fullPath stats thumbOf now else st
    watcherScanFolder rest folderPath st1 thumbOf now
termination_by sizeOf entries
decreasing_by all_goals (simp; try omega)

/-- The FileWatcher's own state: the repository plus the keys of its
chokidar watcher map. -/
structure WatchState where
  storage : MemStorage
  watchers : List String
deriving Repr

/-- FileWatcher.addWatchFolder: no-op when already watching, otherwise
ensure a watched root Folder row, run the initial walk, register the
watcher. -/
def addWatchFolder (ws : WatchState) (folderPath : String)
    (entries : List FSTree) (thumbOf : String → Option String) (now : Nat) :
    WatchState :=
  if listHas ws.watchers folderPath then ws else
  let st0 :=
    match getFolderByPath ws.storage folderPath with
    | some _ => ws.storage
    | none =>
      (createFolder ws.storage
        { path := folderPath
          name := jsBasename folderPath
          parentId := none
          isWatched := some true
          lastScanned := some now }).2
  let st1 := watcherScanFolder entries folderPath st0 thumbOf now
  { storage := st1, watchers := ws.watchers ++ [folderPath] }

/-- FileWatcher.removeWatchFolder: close and drop the watcher if present,
then flip the folder's isWatched flag to false when the folder exists. -/
def removeWatchFolder (ws : WatchState) (folderPath : String) : WatchState :=
  let watchers := ws.watchers.filter (fun p => ¬ (p = folderPath))
  let st :=
    match getFolderByPath ws.storage folderPath with
    | some folder => (updateFolder ws.storage folder.id { isWatched := some false }).2
    | none => ws.storage
  { storage := st, watchers := watchers }

/-- The watcher's unlink event handler (server/storage.ts:525-530): look up
the Asset by path, delete it when present. -/
def onUnlink (st : MemStorage) (filePath : String) : MemStorage :=
  match getAssetByPath st filePath with
  | some asset => (deleteAsset st asset.id).2
  | none => st

/-! ### Route handlers -/

/-- An asset record of the assets-from-path route response. -/
structure RouteAsset where
  name : String
  type : String
  fullpath : String
deriving Repr, DecidableEq

/-- The response outcomes the modelled routes produce. -/
inductive RouteResponse where
  | ok (msg : String)
  | okAssets (assets : List RouteAsset)
  | badRequest (msg : String)
deriving Repr, DecidableEq

/-- walkDirRecursive of the assets-from-path router: every file under dir,
at any depth, whose name matches the extension regex. -/
def walkDirRecursive (entries : List FSTree) (dir : String) : List String :=
  match entries with
  | [] => []
  | FSTree.dir name children :: rest =>
    walkDirRecursive children (jsJoin dir name) ++ walkDirRecursive rest dir
  | FSTree.file name _ :: rest =>
    (if routeRegexTest name then [jsJoin dir name] else []) ++ walkDirRecursive rest dir
termination_by sizeOf entries
decreasing_by all_goals (simp; try omega)

/-- POST /api/assets-from-path: guard on the folder argument, then walk and
map matched files to route asset records. Storage is never touched. -/
def assetsFromPathRoute (body : Option String) (entries : List FSTree) :
    RouteResponse :=
  if jsTruthy body then
    let matched := walkDirRecursive entries (body.getD "")
    RouteResponse.okAssets (matched.map (fun fullPath =>
      { name := jsBasename fullPath
        type := jsSliceFrom (extname fullPath) 1
        fullpath := fullPath }))
  else RouteResponse.badRequest "Missing or Invalid Folder"

/-- POST /api/folders/scan (routes, part_001:125-162): guard, walk, clear
every existing Asset, insert the walk's results, mark the root and its
subfolders watched. -/
def scanRoute (body : Option String) (entries : List FSTree) (st : MemStorage)
    (now : Nat) : RouteResponse × MemStorage :=
  if jsTruthy body then
    let folderPath := body.getD ""
    let (st1, assetsFound) := fileScannerScanFolder folderPath entries st now
    let existingAssets := getAssets st1
    let st2 := existingAssets.foldl (fun s a => (deleteAsset s a.id).2) st1
    let st3 := assetsFound.foldl (fun s ia => (createAsset s ia now).2) st2
    let allFolders := getFolders st3
    let toWatch := allFolders.filter (fun f =>
      f.path = folderPath ∨ jsStartsWith f.path (folderPath ++ "/"))
    let st4 := toWatch.foldl (fun s f => (updateFolder s f.id { isWatched := some true }).2) st3
    (RouteResponse.ok ("Scanned folder and found " ++ toString assetsFound.length ++ " 3D assets"), st4)
  else (RouteResponse.badRequest "Folder path is required", st)

/-- POST /api/folders/watch: guard, then addWatchFolder. -/
def watchRoute (body : Option String) (entries : List FSTree) (ws : WatchState)
    (thumbOf : String → Option String) (now : Nat) : RouteResponse × WatchState :=
  if jsTruthy body then
    (RouteResponse.ok "Folder added to watch list",
      addWatchFolder ws (body.getD "") entries thumbOf now)
  else (RouteResponse.badRequest "Folder path is required", ws)

/-- DELETE /api/folders/watch: guard, then removeWatchFolder. -/
def unwatchRoute (body : Option String) (ws : WatchState) :
    RouteResponse × WatchState :=
  if jsTruthy body then
    (RouteResponse.ok "Folder removed from watch list",
      removeWatchFolder ws (body.getD ""))
  else (RouteResponse.badRequest "Folder path is required", ws)

/-! ### Well-formedness of repository states -/

/-- The representation invariant MemStorage maintains for its asset map:
every entry's stored id equals its key, every key is below the id counter,
and keys are distinct. -/
def StorageWF (st : MemStorage) : Prop :=
  (∀ q ∈ st.assets, q.2.id = q.1 ∧ q.1 < st.currentAssetId) ∧
  (st.assets.map Prod.fst).Nodup

instance (st : MemStorage) : Decidable (StorageWF st) := by
  unfold StorageWF; infer_instance

/-! ### Basic lemmas about the map model -/

theorem mapGet_eq_of_mem {α : Type} {m : List (Nat × α)} {k : Nat} {v : α}
    (hmem : (k, v) ∈ m) (hnd : (m.map Prod.fst).Nodup) : mapGet m k = some v := by
  induction m with
  | nil => cases hmem
  | cons q rest ih =>
    simp only [List.map_cons, List.nodup_cons] at hnd
    rcases List.mem_cons.mp hmem with h | h
    · subst h
      simp [mapGet, List.find?]
    · by_cases hk : q.1 = k
      · exfalso
        exact hnd.1 (hk ▸ List.mem_map_of_mem Prod.fst h)
      · have := ih h hnd.2
        simpa [mapGet, List.find?, hk] using this

theorem getAssetByPath_spec {st : MemStorage} {p : String} {a : Asset}
    (hwf : StorageWF st) (hfound : getAssetByPath st p = some a) :
    (a.id, a) ∈ st.assets ∧ a.filepath = p := by
  have hpath : a.filepath = p := by
    have := List.find?_some hfound
    simpa using this
  have hmem : a ∈ st.assets.map Prod.snd := List.mem_of_find?_eq_some hfound
  rcases List.mem_map.mp hmem with ⟨q, hq, hqa⟩
  have hid : q.2.id = q.1 := (hwf.1 q hq).1
  have : (a.id, a) = q := by
    rcases q with ⟨k, v⟩
    simp only at hqa
    subst hqa
    simp only at hid
    simp [hid]
  exact ⟨this ▸ hq, hpath⟩

theorem mapGet_of_getAssetByPath {st : MemStorage} {p : String} {a : Asset}
    (hwf : StorageWF st) (hfound : getAssetByPath st p = some a) :
    mapGet st.assets a.id = some a :=
  mapGet_eq_of_mem (getAssetByPath_spec hwf hfound).1 hwf.2

/-! ### C10 -/

/-- C10: for an id absent from the corresponding store, updateAsset and
updateFolder return undefined, deleteAsset and deleteFolder return false,
and in all four cases the repository state is completely unchanged. -/
theorem mapGet_none_spec {α : Type} {m : List (Nat × α)} {k : Nat}
    (h : mapGet m k = none) : ∀ q ∈ m, ¬ (q.1 = k) := by
  intro q hq hk
  have hfind : (m.find? fun p => decide (p.1 = k)) = none := by
    simpa [mapGet] using h
  have := List.find?_eq_none.mp hfind q hq
  simp [hk] at this

theorem absent_id_mutations_are_noops (st : MemStorage) (aid fid : Nat)
    (u : UpdateAsset) (uf : UpdateFolder)
    (ha : mapGet st.assets aid = none) (hf : mapGet st.folders fid = none) :
    updateAsset st aid u = (none, st) ∧ deleteAsset st aid = (false, st) ∧
    updateFolder st fid uf = (none, st) ∧ deleteFolder st fid = (false, st) := by
  have ha' := mapGet_none_spec ha
  have hf' := mapGet_none_spec hf
  refine ⟨?_, ?_, ?_, ?_⟩
  · simp [updateAsset, ha]
  · have hany : (st.assets.any fun p => decide (p.1 = aid)) = false := by
      simp only [List.any_eq_false]
      intro q hq
      simpa using ha' q hq
    have hfil : (st.assets.filter fun p => !decide (p.1 = aid)) = st.assets := by
      refine List.filter_eq_self.mpr ?_
      intro q hq
      simpa using ha' q hq
    simp [deleteAsset, mapDelete, hany, hfil]
  · simp [updateFolder, hf]
  · have hany : (st.folders.any fun p => decide (p.1 = fid)) = false := by
      simp only [List.any_eq_false]
      intro q hq
      simpa using hf' q hq
    have hfil : (st.folders.filter fun p => !decide (p.1 = fid)) = st.folders := by
      refine List.filter_eq_self.mpr ?_
      intro q hq
      simpa using hf' q hq
    simp [deleteFolder, mapDelete, hany, hfil]

/-- A one-asset, one-folder repository used to exercise the claims on a
concrete state. -/
def wAsset : Asset :=
  { id := 1, filename := "x.obj", filepath := "/p/x.obj", filesize := 20
    filetype := ".obj", thumbnailPath := none, tags := ["obj"]
    metadata := some "m", lastModified := 5, createdAt := 0 }

/-- Concrete repository containing wAsset and one folder. -/
def wStore : MemStorage :=
  { assets := [(1, wAsset)]
    folders := [(1, { id := 1, path := "/p", name := "p", parentId := none,
                      isWatched := true, lastScanned := none })]
    currentAssetId := 2, currentFolderId := 2 }

/-- Witness for C10 at a concrete state and a concretely absent id. -/
theorem absent_id_mutations_are_noops_witness :
    updateAsset wStore 7 { filesize := some 9 } = (none, wStore) ∧
    deleteAsset wStore 7 = (false, wStore) ∧
    updateFolder wStore 7 { isWatched := some false } = (none, wStore) ∧
    deleteFolder wStore 7 = (false, wStore) :=
  absent_id_mutations_are_noops wStore 7 7 { filesize := some 9 }
    { isWatched := some false } (by decide) (by decide)

/-! ### C1 -/

/-- C1: the mtime guard of the indexer upsert. For an already-indexed asset,
an upsert whose observed mtime is not strictly newer than the stored
lastModified leaves the repository state entirely unchanged, and an upsert
with a strictly newer mtime rewrites exactly the filesize, lastModified and
thumbnailPath fields of that one asset, leaving its tags, metadata and all
other fields, every other asset, and all folders untouched. -/
theorem processAsset_mtime_guard (st : MemStorage) (filePath : String)
    (stats : Stats) (thumbOf : String → Option String) (now : Nat) (asset : Asset)
    (hwf : StorageWF st) (hfound : getAssetByPath st filePath = some asset) :
    (stats.mtime ≤ asset.lastModified →
      processAsset st filePath stats thumbOf now = st) ∧
    (asset.lastModified < stats.mtime →
      processAsset st filePath stats thumbOf now =
        { st with assets := st.assets.map (fun q =>
            if q.1 = asset.id then
              (asset.id, { asset with
                filesize := stats.size
                lastModified := stats.mtime
                thumbnailPath := thumbOf filePath })
            else q) }) := by
  constructor
  · intro hle
    have hnot : ¬ asset.lastModified < stats.mtime := by omega
    simp [processAsset, hfound, hnot]
  · intro hlt
    have hget : mapGet st.assets asset.id = some asset :=
      mapGet_of_getAssetByPath hwf hfound
    have hany : st.assets.any (fun p => p.1 = asset.id) = true := by
      refine List.any_eq_true.mpr ⟨(asset.id, asset), (getAssetByPath_spec hwf hfound).1, by simp⟩
    simp [processAsset, hfound, hlt, updateAsset, hget, mapSet, hany, applyAssetUpdate]

/-- Witness for C1: on the concrete one-asset store, an upsert with an older
mtime is a no-op and an upsert with a newer mtime rewrites the tracked
fields of that asset. -/
theorem processAsset_mtime_guard_witness :
    (processAsset wStore "/p/x.obj" ⟨30, 3, 0⟩ (fun _ => some "t") 9 = wStore) ∧
    (processAsset wStore "/p/x.obj" ⟨30, 8, 0⟩ (fun _ => some "t") 9 =
      { wStore with assets := wStore.assets.map (fun q =>
          if q.1 = wAsset.id then
            (wAsset.id, { wAsset with
              filesize := 30
              lastModified := 8
              thumbnailPath := some "t" })
          else q) }) :=
  ⟨(processAsset_mtime_guard wStore "/p/x.obj" ⟨30, 3, 0⟩ (fun _ => some "t") 9 wAsset
      (by decide) (by decide)).1 (by decide),
   (processAsset_mtime_guard wStore "/p/x.obj" ⟨30, 8, 0⟩ (fun _ => some "t") 9 wAsset
      (by decide) (by decide)).2 (by decide)⟩

/-! ### C7 -/

/-- C7: a watcher delete event for a path removes exactly the asset whose
filepath is that path when one exists (result: the asset list filtered on
filepath different from the path) and leaves folders and both id counters
unchanged; when no asset has the path, the filter removes nothing, so the
state is completely unchanged. -/
theorem onUnlink_removes_exactly_that_path (st : MemStorage) (p : String)
    (hwf : StorageWF st)
    (hpaths : (st.assets.map (fun q => q.2.filepath)).Nodup) :
    (onUnlink st p).assets = st.assets.filter (fun q => ¬ (q.2.filepath = p)) ∧
    (onUnlink st p).folders = st.folders ∧
    (onUnlink st p).currentAssetId = st.currentAssetId ∧
    (onUnlink st p).currentFolderId = st.currentFolderId := by
  cases hfound : getAssetByPath st p with
  | none =>
    have hall : ∀ a ∈ getAssets st, ¬ (a.filepath = p) := by
      intro a hmem ha
      have hfind : ((getAssets st).find? fun asset => decide (asset.filepath = p)) = none := by
        simpa [getAssetByPath] using hfound
      have := List.find?_eq_none.mp hfind a hmem
      simp [ha] at this
    have hfil : (st.assets.filter fun q => !decide (q.2.filepath = p)) = st.assets := by
      refine List.filter_eq_self.mpr ?_
      intro q hq
      have : ¬ (q.2.filepath = p) := hall q.2 (List.mem_map_of_mem Prod.snd hq)
      simpa using this
    simp [onUnlink, hfound, hfil]
  | some a =>
    obtain ⟨hmem, hpath⟩ := getAssetByPath_spec hwf hfound
    have hfil : (st.assets.filter fun q => !decide (q.1 = a.id)) =
        (st.assets.filter fun q => !decide (q.2.filepath = p)) := by
      refine List.filter_congr ?_
      intro q hq
      have hiff : (q.1 = a.id) ↔ (q.2.filepath = p) := by
        constructor
        · intro hk
          have hqe : q = (a.id, a) := by
            refine List.inj_on_of_nodup_map hwf.2 hq hmem ?_
            simpa using hk
          rw [hqe]
          exact hpath
        · intro hp
          have hqe : q = (a.id, a) := by
            refine List.inj_on_of_nodup_map hpaths hq hmem ?_
            simp only []
            rw [hp, hpath]
          rw [hqe]
      exact congrArg Bool.not (decide_eq_decide.mpr hiff)
    simp [onUnlink, hfound, deleteAsset, mapDelete, hfil]

/-- Witness for C7: on the concrete one-asset store, a delete event for the
asset's path removes it (and nothing else), shown by instantiating the
theorem. -/
theorem onUnlink_removes_exactly_that_path_witness :
    (onUnlink wStore "/p/x.obj").assets =
      wStore.assets.filter (fun q => ¬ (q.2.filepath = "/p/x.obj")) ∧
    (onUnlink wStore "/p/x.obj").folders = wStore.folders ∧
    (onUnlink wStore "/p/x.obj").currentAssetId = wStore.currentAssetId ∧
    (onUnlink wStore "/p/x.obj").currentFolderId = wStore.currentFolderId :=
  onUnlink_removes_exactly_that_path wStore "/p/x.obj" (by decide) (by decide)

/-! ### C3 -/

theorem singleton_infix_iff (c : Char) (l : List Char) : [c] <:+: l ↔ c ∈ l := by
  constructor
  · rintro ⟨s, t, rfl⟩
    simp
  · intro h
    rcases List.append_of_mem h with ⟨s, t, rfl⟩
    exact ⟨s, t, by simp⟩

theorem string_length_data (p : String) : p.length = p.data.length := rfl

/-- A grandchild folder row for the C3 counterexample. -/
def c3Folder (i : Nat) (p : String) (w : Bool) : Folder :=
  { id := i, path := p, name := p, parentId := none, isWatched := w,
    lastScanned := none }

/-- Store with a parent, a watched child and a watched grandchild. -/
def c3Store : MemStorage :=
  { assets := []
    folders := [(1, c3Folder 1 "/a" true), (2, c3Folder 2 "/a/b" true),
                (3, c3Folder 3 "/a/b/c" true)]
    currentAssetId := 1, currentFolderId := 4 }

/-- Store whose only direct child of the parent is unwatched. -/
def c3StoreUnwatched : MemStorage :=
  { assets := []
    folders := [(1, c3Folder 1 "/a" true), (2, c3Folder 2 "/a/b" false)]
    currentAssetId := 1, currentFolderId := 3 }

/-- C3 counterexample: the first getSubfolders variant returns the grandchild
"/a/b/c" of "/a", contradicting "it never returns a grandchild or deeper
descendant"; the second variant returns nothing for a store whose only direct
child "/a/b" is unwatched, contradicting "it returns every direct child
regardless of any other attribute of the Folder". -/
theorem getSubfolders_claim_counterexample :
    ((getSubfoldersV1 c3Store "/a").map Folder.path = ["/a/b", "/a/b/c"]) ∧
    ((getSubfoldersV2 c3StoreUnwatched "/a").map Folder.path = []) := by
  decide

/-- C3 amended: what the two getSubfolders variants actually return. The
first variant returns exactly the folders whose path has parentPath as a
strict string prefix, at any depth. The second variant returns every watched
folder whose path extends parentPath by a separator and one further
separator-free segment, and never returns a folder whose path extends
parentPath by two or more segments; unwatched direct children are omitted
(per the counterexample). -/
theorem getSubfolders_actual_semantics :
    (∀ (st : MemStorage) (p : String) (f : Folder),
      f ∈ getSubfoldersV1 st p ↔
        f ∈ getFolders st ∧ jsStartsWith f.path p = true ∧ f.path ≠ p) ∧
    (∀ (st : MemStorage) (p name : String) (f : Folder),
      f ∈ getFolders st → f.path = p ++ "/" ++ name → ('/' ∉ name.data) →
      f.isWatched = true → f ∈ getSubfoldersV2 st p) ∧
    (∀ (st : MemStorage) (p a b : String) (f : Folder),
      f ∈ getSubfoldersV2 st p → f.path ≠ p ++ "/" ++ a ++ "/" ++ b) := by
  refine ⟨?_, ?_, ?_⟩
  · intro st p f
    simp [getSubfoldersV1, List.mem_filter]
  · intro st p name f hf hpath hsep hw
    have hdata : f.path.data = p.data ++ '/' :: name.data := by
      rw [hpath]
      simp [String.data_append]
    have hrel : (jsSliceFrom f.path (p.length + 1)).data = name.data := by
      show f.path.data.drop (p.length + 1) = name.data
      rw [hdata]
      have hsplit : p.data ++ '/' :: name.data = (p.data ++ ['/']) ++ name.data := by simp
      rw [hsplit]
      exact List.drop_left' (by rw [string_length_data]; simp)
    refine List.mem_filter.mpr ⟨hf, ?_⟩
    simp only [decide_eq_true_eq]
    refine ⟨?_, ?_, ?_, hw⟩
    · show p.data.isPrefixOf f.path.data = true
      rw [ List.isPrefixOf_iff_prefix, hdata]
      exact List.prefix_append _ _
    · intro he
      rw [he] at hdata
      simp at hdata
    · show ¬ jsIncludes (jsSliceFrom f.path (p.length + 1)) "/" = true
      simp only [jsIncludes, decide_eq_true_eq, hrel]
      intro hinf
      have : '/' ∈ name.data := (singleton_infix_iff _ _).mp (by simpa using hinf)
      exact hsep this
  · intro st p a b f hmem hpath
    have hcond := (List.mem_filter.mp hmem).2
    simp only [decide_eq_true_eq] at hcond
    obtain ⟨-, -, hninc, -⟩ := hcond
    apply hninc
    have hdata : f.path.data = (p.data ++ ['/']) ++ (a.data ++ '/' :: b.data) := by
      rw [hpath]
      simp [String.data_append]
    have hrel : (jsSliceFrom f.path (p.length + 1)).data = a.data ++ '/' :: b.data := by
      show f.path.data.drop (p.length + 1) = a.data ++ '/' :: b.data
      rw [hdata]
      exact List.drop_left' (by rw [string_length_data]; simp)
    simp only [jsIncludes, decide_eq_true_eq]
    show ['/'] <:+: (jsSliceFrom f.path (p.length + 1)).data
    rw [hrel]
    exact (singleton_infix_iff _ _).mpr (by simp)

/-- Witness for C3's amended theorem: on the concrete store, the watched
direct child "/a/b" of "/a" is returned by the second variant, obtained by
instantiating the amended theorem. -/
theorem getSubfolders_actual_semantics_witness :
    c3Folder 2 "/a/b" true ∈ getSubfoldersV2 c3Store "/a" :=
  getSubfolders_actual_semantics.2.1 c3Store "/a" "b" (c3Folder 2 "/a/b" true)
    (by decide) (by decide) (by decide) (by decide)

/-! ### C6 -/

/-- The extensions on which the on-demand scanner's list and the watcher's
list differ (scanner-only: max, c4d; watcher-only: usd family, hip family,
uasset). -/
def divergentExts : List String :=
  [".max", ".c4d", ".usd", ".usda", ".usdc", ".hip", ".hiplc", ".uasset"]

/-- C6 counterexample: the supported-format predicates are not one canonical
set. A path with extension .max is accepted by the on-demand scanner but
rejected by the watcher's is3DFile, and a .usd path is accepted by the
watcher but rejected by the scanner. -/
theorem supported_sets_differ :
    (scannerFileSupported "model.max" = true ∧ is3DFile "model.max" = false) ∧
    (scannerFileSupported "model.usd" = false ∧ is3DFile "model.usd" = true) := by
  decide

/-- C6 amended: the scanner's and watcher's predicates agree on every file
path whose lower-cased extension is outside the eight divergent extensions
(.max and .c4d are scanner-only; .usd, .usda, .usdc, .hip, .hiplc and
.uasset are watcher-only), and each extension of the assets-from-path route
regex belongs to both of the other two sets. -/
theorem ext_set_agreement (e : String) (hout : e ∉ divergentExts) :
    e ∈ supportedExtensions ↔ e ∈ SUPPORTED_3D_FORMATS := by
  simp only [supportedExtensions, SUPPORTED_3D_FORMATS, divergentExts,
    List.mem_cons, List.not_mem_nil, or_false, not_or] at *
  obtain ⟨h1, h2, h3, h4, h5, h6, h7, h8⟩ := hout
  constructor
  · rintro (rfl | rfl | rfl | rfl | rfl | rfl | rfl | rfl | rfl) <;> simp_all
  · rintro (rfl | rfl | rfl | rfl | rfl | rfl | rfl | rfl | rfl | rfl | rfl | rfl | rfl) <;>
      simp_all

theorem supported_sets_agree_off_divergence :
    (∀ p : String, jsToLower (extname p) ∉ divergentExts →
      scannerFileSupported p = is3DFile p) ∧
    (∀ e ∈ routeRegexExts, e ∈ supportedExtensions ∧ e ∈ SUPPORTED_3D_FORMATS) := by
  constructor
  · intro p hout
    rw [Bool.eq_iff_iff]
    simp only [scannerFileSupported, is3DFile, listHas, List.any_eq_true,
      decide_eq_true_eq]
    constructor
    · rintro ⟨x, hx, rfl⟩
      exact ⟨_, (ext_set_agreement _ hout).mp hx, rfl⟩
    · rintro ⟨x, hx, rfl⟩
      exact ⟨_, (ext_set_agreement _ hout).mpr hx, rfl⟩
  · decide

/-- Witness for C6's amended theorem at the concrete extension .obj, which
is outside the divergence set. -/
theorem supported_sets_agree_off_divergence_witness :
    scannerFileSupported "a.obj" = is3DFile "a.obj" :=
  supported_sets_agree_off_divergence.1 "a.obj" (by decide)

/-! ### C8 -/

/-- C8: every modelled scan, watch and unwatch entry point, invoked with a
missing (undefined) or empty path argument, returns the 400 error response
and leaves its state exactly as it was, for every filesystem content — the
guard fires before the walk or the watcher ever runs, so no filesystem
access and no Asset or Folder mutation happens. -/
theorem malformed_path_rejected_before_any_effect :
    (∀ (fs : List FSTree) (st : MemStorage) (now : Nat),
      scanRoute none fs st now =
        (RouteResponse.badRequest "Folder path is required", st) ∧
      scanRoute (some "") fs st now =
        (RouteResponse.badRequest "Folder path is required", st)) ∧
    (∀ (fs : List FSTree) (ws : WatchState) (thumbOf : String → Option String) (now : Nat),
      watchRoute none fs ws thumbOf now =
        (RouteResponse.badRequest "Folder path is required", ws) ∧
      watchRoute (some "") fs ws thumbOf now =
        (RouteResponse.badRequest "Folder path is required", ws)) ∧
    (∀ ws : WatchState,
      unwatchRoute none ws =
        (RouteResponse.badRequest "Folder path is required", ws) ∧
      unwatchRoute (some "") ws =
        (RouteResponse.badRequest "Folder path is required", ws)) ∧
    (∀ fs : List FSTree,
      assetsFromPathRoute none fs =
        RouteResponse.badRequest "Missing or Invalid Folder" ∧
      assetsFromPathRoute (some "") fs =
        RouteResponse.badRequest "Missing or Invalid Folder") :=
  ⟨fun _ _ _ => ⟨rfl, by simp [scanRoute, jsTruthy]⟩,
   fun _ _ _ _ => ⟨rfl, by simp [watchRoute, jsTruthy]⟩,
   fun _ => ⟨rfl, by simp [unwatchRoute, jsTruthy]⟩,
   fun _ => ⟨rfl, by simp [assetsFromPathRoute, jsTruthy]⟩⟩

/-! ### C5 -/

theorem scanRecursive_stop {es : List FSTree} {p : String} {d : Nat}
    {st : MemStorage} {now : Nat} (h : d > 10) :
    scanRecursive es p d st now = (st, []) := by
  rw [scanRecursive.eq_def]
  simp [h]

theorem scanRecursive_nil {p : String} {d : Nat} {st : MemStorage} {now : Nat} :
    scanRecursive [] p d st now = (st, []) := by
  rw [scanRecursive.eq_def]
  simp

theorem scanRecursive_file {name : String} {stats : Stats} {rest : List FSTree}
    {p : String} {d : Nat} {st : MemStorage} {now : Nat} (h : ¬ d > 10) :
    scanRecursive (FSTree.file name stats :: rest) p d st now =
      ((scanRecursive rest p d st now).1,
        (if scannerFileSupported name then [createAssetFromFile (jsJoin p name) stats] else []) ++
          (scanRecursive rest p d st now).2) := by
  rw [scanRecursive.eq_def]
  simp [h]

theorem scanRecursive_dir_ok {name : String} {children rest : List FSTree}
    {p : String} {d : Nat} {st : MemStorage} {now : Nat} (h : ¬ d > 10)
    (hname : ¬ jsStartsWith name "." = true ∧ ¬ shouldIgnoreDirectory name = true) :
    scanRecursive (FSTree.dir name children :: rest) p d st now =
      ((scanRecursive rest p d
          (scanRecursive children (jsJoin p name) (d + 1)
            (ensureFolderScanner st (jsJoin p name) name p now) now).1 now).1,
        (scanRecursive children (jsJoin p name) (d + 1)
            (ensureFolderScanner st (jsJoin p name) name p now) now).2 ++
          (scanRecursive rest p d
            (scanRecursive children (jsJoin p name) (d + 1)
              (ensureFolderScanner st (jsJoin p name) name p now) now).1 now).2) := by
  rw [scanRecursive.eq_def]
  simp [h, hname]

theorem scanRecursive_dir_skip {name : String} {children rest : List FSTree}
    {p : String} {d : Nat} {st : MemStorage} {now : Nat} (h : ¬ d > 10)
    (hname : ¬ (¬ jsStartsWith name "." = true ∧ ¬ shouldIgnoreDirectory name = true)) :
    scanRecursive (FSTree.dir name children :: rest) p d st now =
      scanRecursive rest p d st now := by
  rw [scanRecursive.eq_def]
  rw [if_neg h]
  exact if_neg hname

/-- Truncate a directory forest at a remaining depth budget: when the budget
is exhausted, directory contents are removed (the directory node itself is
kept); files are always kept. Spec-side device for stating the depth bound. -/
def truncList (b : Nat) : List FSTree → List FSTree
  | [] => []
  | FSTree.file name stats :: rest => FSTree.file name stats :: truncList b rest
  | FSTree.dir name children :: rest =>
    FSTree.dir name (if b = 0 then [] else truncList (b - 1) children) ::
      truncList b rest
termination_by es => sizeOf es
decreasing_by all_goals (simp; try omega)

/-- C5, amended, scanner part: the on-demand scanner's walk never reads the
contents of directories more than 10 levels below the point it was started
at — the walk of any forest equals the walk of the forest truncated at the
remaining depth budget, at every starting depth, for every state, with no
error. (Termination on every finite tree holds because scanRecursive is a
total function.) The watcher's walk has no such bound: see the
counterexample theorem. -/
theorem scanRecursive_depth_bounded (entries : List FSTree) (currentPath : String)
    (depth : Nat) (st : MemStorage) (now : Nat) :
    scanRecursive entries currentPath depth st now =
      scanRecursive (truncList (10 - depth) entries) currentPath depth st now := by
  induction entries, currentPath, depth, st, now using scanRecursive.induct with
  | case1 es p d st now h =>
    rw [scanRecursive_stop h, scanRecursive_stop h]
  | case2 p d st now h =>
    rw [truncList]
  | case3 p d st now h name children rest hcond fullPath st1 stc asc heqc str asr heqr ihc ihr =>
    have ihc2 : scanRecursive children (jsJoin p name) (d + 1)
        (ensureFolderScanner st (jsJoin p name) name p now) now =
      scanRecursive (truncList (10 - (d + 1)) children) (jsJoin p name) (d + 1)
        (ensureFolderScanner st (jsJoin p name) name p now) now := ihc
    have heqc2 : scanRecursive children (jsJoin p name) (d + 1)
        (ensureFolderScanner st (jsJoin p name) name p now) now = (stc, asc) := heqc
    have ihr2 : scanRecursive rest p d stc now =
        scanRecursive (truncList (10 - d) rest) p d stc now := ihr
    rcases Nat.lt_or_ge d 10 with hd | hd
    · have htr : truncList (10 - d) (FSTree.dir name children :: rest) =
          FSTree.dir name (truncList (10 - (d + 1)) children) :: truncList (10 - d) rest := by
        rw [truncList]
        rw [if_neg (by omega : ¬ (10 - d) = 0)]
        rw [show 10 - d - 1 = 10 - (d + 1) from by omega]
      rw [htr]
      rw [scanRecursive_dir_ok h hcond, scanRecursive_dir_ok h hcond]
      rw [← ihc2]
      rw [heqc2]
      simp [ihr2]
    · have hd10 : d = 10 := by omega
      subst hd10
      have htr : truncList (10 - 10) (FSTree.dir name children :: rest) =
          FSTree.dir name [] :: truncList (10 - 10) rest := by
        rw [truncList]
        rw [if_pos (by omega : (10 : Nat) - 10 = 0)]
      rw [htr]
      rw [scanRecursive_dir_ok h hcond, scanRecursive_dir_ok h hcond]
      rw [scanRecursive_stop (by omega : 10 + 1 > 10)]
      rw [scanRecursive_stop (by omega : 10 + 1 > 10)]
      rw [scanRecursive_stop (by omega : 10 + 1 > 10)] at heqc2
      have hstc : stc = ensureFolderScanner st (jsJoin p name) name p now := by
        have hfst := congrArg Prod.fst heqc2
        simpa using hfst.symm
      rw [hstc] at ihr2
      simp [ihr2]
  | case4 p d st now h name children rest hcond ih =>
    rw [scanRecursive_dir_skip h hcond]
    simp only [truncList]
    rw [scanRecursive_dir_skip h hcond]
    exact ih
  | case5 p d st now h name stats rest str asr heq ih =>
    rw [scanRecursive_file h]
    simp only [truncList]
    rw [scanRecursive_file h]
    simp only [ih]

/-! ### Walk lemmas shared by the scan-route and scenario claims -/

theorem ensureFolderScanner_assets (st : MemStorage) (fullPath name currentPath : String)
    (now : Nat) :
    (ensureFolderScanner st fullPath name currentPath now).assets = st.assets ∧
    (ensureFolderScanner st fullPath name currentPath now).currentAssetId =
      st.currentAssetId := by
  unfold ensureFolderScanner
  cases getFolderByPath st fullPath with
  | some f => exact ⟨rfl, rfl⟩
  | none => simp [createFolder]

theorem scanRecursive_preserves_assets (entries : List FSTree) (p : String)
    (d : Nat) (st : MemStorage) (now : Nat) :
    (scanRecursive entries p d st now).1.assets = st.assets ∧
    (scanRecursive entries p d st now).1.currentAssetId = st.currentAssetId := by
  induction entries, p, d, st, now using scanRecursive.induct with
  | case1 es p d st now h =>
    rw [scanRecursive_stop h]
    exact ⟨rfl, rfl⟩
  | case2 p d st now h =>
    rw [scanRecursive_nil]
    exact ⟨rfl, rfl⟩
  | case3 p d st now h name children rest hcond fullPath st1 stc asc heqc str asr heqr ihc ihr =>
    have hc : (scanRecursive children (jsJoin p name) (d + 1)
        (ensureFolderScanner st (jsJoin p name) name p now) now).1.assets =
          (ensureFolderScanner st (jsJoin p name) name p now).assets ∧
        (scanRecursive children (jsJoin p name) (d + 1)
          (ensureFolderScanner st (jsJoin p name) name p now) now).1.currentAssetId =
          (ensureFolderScanner st (jsJoin p name) name p now).currentAssetId := ihc
    have heqc2 : scanRecursive children (jsJoin p name) (d + 1)
        (ensureFolderScanner st (jsJoin p name) name p now) now = (stc, asc) := heqc
    have hr : (scanRecursive rest p d stc now).1.assets = stc.assets ∧
        (scanRecursive rest p d stc now).1.currentAssetId = stc.currentAssetId := ihr
    have hfst : (scanRecursive children (jsJoin p name) (d + 1)
        (ensureFolderScanner st (jsJoin p name) name p now) now).1 = stc := by
      rw [heqc2]
    rw [hfst] at hc
    have he := ensureFolderScanner_assets st (jsJoin p name) name p now
    rw [scanRecursive_dir_ok h hcond, hfst]
    exact ⟨hr.1.trans (hc.1.trans he.1), hr.2.trans (hc.2.trans he.2)⟩
  | case4 p d st now h name children rest hcond ih =>
    rw [scanRecursive_dir_skip h hcond]
    exact ih
  | case5 p d st now h name stats rest st1 as2 heq ih =>
    rw [scanRecursive_file h]
    exact ih

theorem scanRecursive_out_state_independent (entries : List FSTree) (p : String)
    (d : Nat) (st : MemStorage) (now : Nat) :
    ∀ stB : MemStorage,
      (scanRecursive entries p d st now).2 = (scanRecursive entries p d stB now).2 := by
  induction entries, p, d, st, now using scanRecursive.induct with
  | case1 es p d st now h =>
    intro stB
    rw [scanRecursive_stop h, scanRecursive_stop h]
  | case2 p d st now h =>
    intro stB
    rw [scanRecursive_nil, scanRecursive_nil]
  | case3 p d st now h name children rest hcond fullPath st1 stc asc heqc str asr heqr ihc ihr =>
    intro stB
    have hcall : ∀ sB : MemStorage,
        (scanRecursive children (jsJoin p name) (d + 1)
          (ensureFolderScanner st (jsJoin p name) name p now) now).2 =
        (scanRecursive children (jsJoin p name) (d + 1) sB now).2 := ihc
    have hrall : ∀ sB : MemStorage,
        (scanRecursive rest p d stc now).2 = (scanRecursive rest p d sB now).2 := ihr
    rw [scanRecursive_dir_ok h hcond, scanRecursive_dir_ok h hcond]
    have hc := hcall (ensureFolderScanner stB (jsJoin p name) name p now)
    have hr :=
      ((hrall ((scanRecursive children (jsJoin p name) (d + 1)
          (ensureFolderScanner st (jsJoin p name) name p now) now).1)).symm).trans
        (hrall ((scanRecursive children (jsJoin p name) (d + 1)
          (ensureFolderScanner stB (jsJoin p name) name p now) now).1))
    rw [hc, hr]
  | case4 p d st now h name children rest hcond ih =>
    intro stB
    rw [scanRecursive_dir_skip h hcond, scanRecursive_dir_skip h hcond]
    exact ih stB
  | case5 p d st now h name stats rest st1 as2 heq ih =>
    intro stB
    rw [scanRecursive_file h, scanRecursive_file h]
    rw [ih stB]

theorem scanRecursive_out_append (es1 es2 : List FSTree) (p : String) (d : Nat)
    (st : MemStorage) (now : Nat) (h : ¬ d > 10) :
    (scanRecursive (es1 ++ es2) p d st now).2 =
      (scanRecursive es1 p d st now).2 ++ (scanRecursive es2 p d st now).2 := by
  induction es1 generalizing st with
  | nil =>
    rw [scanRecursive_nil]
    simp
  | cons e rest ih =>
    cases e with
    | file name stats =>
      rw [List.cons_append, scanRecursive_file h, scanRecursive_file h]
      rw [ih]
      simp
    | dir name children =>
      by_cases hname : ¬ jsStartsWith name "." = true ∧ ¬ shouldIgnoreDirectory name = true
      · rw [List.cons_append, scanRecursive_dir_ok h hname, scanRecursive_dir_ok h hname]
        rw [ih]
        rw [scanRecursive_out_state_independent es2 p d
          ((scanRecursive children (jsJoin p name) (d + 1)
            (ensureFolderScanner st (jsJoin p name) name p now) now).1) now st]
        simp
      · rw [List.cons_append, scanRecursive_dir_skip h hname, scanRecursive_dir_skip h hname]
        exact ih st

/-! ### C2 -/

/-- A stored Asset carries exactly the data of an InsertAsset, after the
JS-falsy normalisations createAsset applies. -/
def AssetMatchesInsert (a : Asset) (ia : InsertAsset) : Prop :=
  a.filename = ia.filename ∧ a.filepath = ia.filepath ∧ a.filesize = ia.filesize ∧
  a.filetype = ia.filetype ∧ a.thumbnailPath = jsOrNullStr ia.thumbnailPath ∧
  a.tags = ia.tags.getD [] ∧ a.metadata = jsOrNullStr ia.metadata ∧
  a.lastModified = ia.lastModified

theorem fileScannerScanFolder_preserves_assets (p : String) (entries : List FSTree)
    (st : MemStorage) (now : Nat) :
    (fileScannerScanFolder p entries st now).1.assets = st.assets ∧
    (fileScannerScanFolder p entries st now).1.currentAssetId = st.currentAssetId := by
  have hst0 : ∀ st0 : MemStorage, st0.assets = st.assets →
      st0.currentAssetId = st.currentAssetId →
      (scanRecursive entries p 0 st0 now).1.assets = st.assets ∧
      (scanRecursive entries p 0 st0 now).1.currentAssetId = st.currentAssetId := by
    intro st0 h1 h2
    have h := scanRecursive_preserves_assets entries p 0 st0 now
    exact ⟨h.1.trans h1, h.2.trans h2⟩
  unfold fileScannerScanFolder
  cases getFolderByPath st p with
  | some f => exact hst0 st rfl rfl
  | none => exact hst0 _ (by simp [createFolder]) (by simp [createFolder])

theorem foldl_deleteAsset_clears (L : List Asset) (s : MemStorage)
    (h : ∀ q ∈ s.assets, ∃ a ∈ L, a.id = q.1) :
    (L.foldl (fun acc a => (deleteAsset acc a.id).2) s).assets = [] ∧
    (L.foldl (fun acc a => (deleteAsset acc a.id).2) s).folders = s.folders ∧
    (L.foldl (fun acc a => (deleteAsset acc a.id).2) s).currentAssetId =
      s.currentAssetId := by
  induction L generalizing s with
  | nil =>
    refine ⟨?_, rfl, rfl⟩
    simp only [List.foldl_nil]
    refine List.eq_nil_iff_forall_not_mem.mpr ?_
    intro q hq
    rcases h q hq with ⟨a, ha, -⟩
    exact (List.not_mem_nil a) ha
  | cons a L ih =>
    simp only [List.foldl_cons]
    refine ih ((deleteAsset s a.id).2) ?_
    intro q hq
    simp only [deleteAsset, mapDelete, List.mem_filter] at hq
    rcases h q hq.1 with ⟨b, hb, hbid⟩
    rcases List.mem_cons.mp hb with rfl | hbL
    · exfalso
      have : ¬ (q.1 = b.id) := by simpa using hq.2
      exact this hbid.symm
    · exact ⟨b, hbL, hbid⟩

theorem foldl_createAsset_appends (L : List InsertAsset) (s : MemStorage) (now : Nat)
    (hinv : ∀ q ∈ s.assets, q.1 < s.currentAssetId) :
    ∃ news : List (Nat × Asset),
      (L.foldl (fun acc ia => (createAsset acc ia now).2) s).assets = s.assets ++ news ∧
      List.Forall₂ AssetMatchesInsert (news.map Prod.snd) L ∧
      (∀ q ∈ news, s.currentAssetId ≤ q.1) := by
  induction L generalizing s with
  | nil => exact ⟨[], by simp, List.Forall₂.nil, by simp⟩
  | cons ia L ih =>
    simp only [List.foldl_cons]
    have hfresh : (s.assets.any fun q => decide (q.1 = s.currentAssetId)) = false := by
      simp only [List.any_eq_false]
      intro q hq
      have := hinv q hq
      simp
      omega
    have hset : (createAsset s ia now).2.assets =
        s.assets ++ [(s.currentAssetId, (createAsset s ia now).1)] := by
      simp [createAsset, mapSet, hfresh]
    have hinv2 : ∀ q ∈ (createAsset s ia now).2.assets,
        q.1 < (createAsset s ia now).2.currentAssetId := by
      intro q hq
      rw [hset] at hq
      rcases List.mem_append.mp hq with hq | hq
      · have := hinv q hq
        simp [createAsset]
        omega
      · simp at hq
        subst hq
        simp [createAsset]
    rcases ih ((createAsset s ia now).2) hinv2 with ⟨news, hassets, hmatch, hge⟩
    refine ⟨(s.currentAssetId, (createAsset s ia now).1) :: news, ?_, ?_, ?_⟩
    · rw [hassets, hset]
      simp
    · refine List.Forall₂.cons ?_ hmatch
      simp [createAsset, AssetMatchesInsert]
    · intro q hq
      rcases List.mem_cons.mp hq with rfl | hq
      · simp
      · have := hge q hq
        simp [createAsset] at this
        omega

theorem foldl_updateFolder_assets (F : List Folder) (s : MemStorage) :
    (F.foldl (fun acc f => (updateFolder acc f.id { isWatched := some true }).2) s).assets
      = s.assets ∧
    (F.foldl (fun acc f => (updateFolder acc f.id { isWatched := some true }).2) s).currentAssetId
      = s.currentAssetId := by
  induction F generalizing s with
  | nil => exact ⟨rfl, rfl⟩
  | cons f F ih =>
    simp only [List.foldl_cons]
    have hone : (updateFolder s f.id { isWatched := some true }).2.assets = s.assets ∧
        (updateFolder s f.id { isWatched := some true }).2.currentAssetId =
          s.currentAssetId := by
      unfold updateFolder
      cases mapGet s.folders f.id with
      | none => exact ⟨rfl, rfl⟩
      | some g => exact ⟨rfl, rfl⟩
    rcases ih ((updateFolder s f.id { isWatched := some true }).2) with ⟨h1, h2⟩
    exact ⟨h1.trans hone.1, h2.trans hone.2⟩

/-- C2: for every repository state satisfying the asset-map representation
invariant and every nonempty path, the scan route first deletes every Asset
that existed before the call — whatever its filepath — and then inserts
exactly the walk's results: afterwards the stored assets correspond
one-to-one, in order and in all InsertAsset fields, to the walk's output,
and no pre-existing asset id survives. -/
theorem scanRoute_clears_and_rebuilds (p : String) (entries : List FSTree)
    (st : MemStorage) (now : Nat) (hp : p ≠ "")
    (hwf : ∀ q ∈ st.assets, q.2.id = q.1 ∧ q.1 < st.currentAssetId) :
    List.Forall₂ AssetMatchesInsert
      ((scanRoute (some p) entries st now).2.assets.map Prod.snd)
      ((fileScannerScanFolder p entries st now).2) ∧
    ∀ k ∈ st.assets.map Prod.fst,
      k ∉ (scanRoute (some p) entries st now).2.assets.map Prod.fst := by
  have htruthy : jsTruthy (some p) = true := by simp [jsTruthy, hp]
  have hwalk := fileScannerScanFolder_preserves_assets p entries st now
  set walk := fileScannerScanFolder p entries st now with hwalkdef
  have hroute : (scanRoute (some p) entries st now).2 =
      ((getFolders ((walk.2.foldl (fun acc ia => (createAsset acc ia now).2)
          ((getAssets walk.1).foldl (fun acc a => (deleteAsset acc a.id).2) walk.1)))).filter
        (fun f => decide (f.path = p ∨ jsStartsWith f.path (p ++ "/") = true))).foldl
        (fun acc f => (updateFolder acc f.id { isWatched := some true }).2)
        (walk.2.foldl (fun acc ia => (createAsset acc ia now).2)
          ((getAssets walk.1).foldl (fun acc a => (deleteAsset acc a.id).2) walk.1)) := by
    simp only [scanRoute, htruthy, if_true, Option.getD_some, ← hwalkdef]
  have hdel := foldl_deleteAsset_clears (getAssets walk.1) walk.1 ?hcov
  case hcov =>
    intro q hq
    exact ⟨q.2, List.mem_map_of_mem Prod.snd hq, (hwf q (hwalk.1 ▸ hq)).1⟩
  set st2 := (getAssets walk.1).foldl (fun acc a => (deleteAsset acc a.id).2) walk.1 with hst2
  have hcre := foldl_createAsset_appends walk.2 st2 now ?hinv
  case hinv =>
    intro q hq
    rw [hdel.1] at hq
    cases hq
  rcases hcre with ⟨news, hassets, hmatch, hge⟩
  set st3 := walk.2.foldl (fun acc ia => (createAsset acc ia now).2) st2 with hst3
  have hupd := foldl_updateFolder_assets
    ((getFolders st3).filter (fun f => decide (f.path = p ∨ jsStartsWith f.path (p ++ "/") = true))) st3
  constructor
  · rw [hroute]
    rw [hupd.1]
    rw [hassets, hdel.1]
    simpa using hmatch
  · intro k hk
    rw [hroute, hupd.1, hassets, hdel.1]
    simp only [List.nil_append, List.mem_map]
    rintro ⟨q, hq, rfl⟩
    have h1 : st2.currentAssetId ≤ q.1 := hge q hq
    have h2 : st2.currentAssetId = st.currentAssetId := by
      rw [hdel.2.2, hwalk.2]
    rcases List.mem_map.mp hk with ⟨r, hr, hrk⟩
    have h3 : r.1 < st.currentAssetId := (hwf r hr).2
    omega

/-- Witness for C2: a concrete scan of a one-file tree over the one-asset
store, obtained by instantiating the theorem. -/
theorem scanRoute_clears_and_rebuilds_witness :
    List.Forall₂ AssetMatchesInsert
      ((scanRoute (some "/r") [FSTree.file "a.obj" ⟨6, 2, 1⟩] wStore 5).2.assets.map Prod.snd)
      ((fileScannerScanFolder "/r" [FSTree.file "a.obj" ⟨6, 2, 1⟩] wStore 5).2) ∧
    ∀ k ∈ wStore.assets.map Prod.fst,
      k ∉ (scanRoute (some "/r") [FSTree.file "a.obj" ⟨6, 2, 1⟩] wStore 5).2.assets.map Prod.fst :=
  scanRoute_clears_and_rebuilds "/r" [FSTree.file "a.obj" ⟨6, 2, 1⟩] wStore 5
    (by decide) (by decide)

/-! ### C9 -/

theorem splitSegs_ne_nil (c : Char) (l : List Char) : splitSegs c l ≠ [] := by
  induction l with
  | nil => simp [splitSegs]
  | cons x xs ih =>
    rw [splitSegs]
    cases h : splitSegs c xs with
    | nil => exact absurd h ih
    | cons hd tl =>
      by_cases hx : x = c <;> simp [hx]

theorem splitSegs_append_cons (c : Char) (xs ys : List Char) :
    splitSegs c (xs ++ c :: ys) = splitSegs c xs ++ splitSegs c ys := by
  induction xs with
  | nil =>
    simp only [List.nil_append]
    cases h : splitSegs c ys with
    | nil => exact absurd h (splitSegs_ne_nil c ys)
    | cons hd tl =>
      conv_lhs => rw [splitSegs]
      rw [h]
      simp [splitSegs]
  | cons x xs ih =>
    simp only [List.cons_append]
    rw [splitSegs, ih]
    cases hx : splitSegs c xs with
    | nil => exact absurd hx (splitSegs_ne_nil c xs)
    | cons hd tl =>
      rw [splitSegs, hx]
      by_cases hxc : x = c <;> simp [hxc]

theorem splitSegs_no_sep (c : Char) (l : List Char) (h : c ∉ l) :
    splitSegs c l = [l] := by
  induction l with
  | nil => simp [splitSegs]
  | cons x xs ih =>
    rw [splitSegs, ih (fun hm => h (List.mem_cons_of_mem x hm))]
    have hx : ¬ (x = c) := fun he => h (he ▸ List.mem_cons_self x xs)
    simp [hx]

theorem jsBasename_no_slash (n : String) (h : '/' ∉ n.data) : jsBasename n = n := by
  unfold jsBasename jsSplit
  rw [splitSegs_no_sep _ _ h]
  simp

theorem jsBasename_append (x n : String) (h : '/' ∉ n.data) :
    jsBasename (x ++ "/" ++ n) = n := by
  unfold jsBasename jsSplit
  have hdata : (x ++ "/" ++ n).data = x.data ++ '/' :: n.data := by
    simp [String.data_append]
  rw [hdata, splitSegs_append_cons, splitSegs_no_sep _ _ h]
  rw [List.map_append]
  simp

theorem extname_congr {p q : String} (h : jsBasename p = jsBasename q) :
    extname p = extname q := by
  unfold extname
  rw [h]

theorem jsToLower_data (s : String) : (jsToLower s).data = s.data.map Char.toLower := rfl

theorem listHas_iff (l : List String) (s : String) : listHas l s = true ↔ s ∈ l := by
  simp only [listHas, List.any_eq_true, decide_eq_true_eq]
  constructor
  · rintro ⟨x, hx, rfl⟩
    exact hx
  · intro h
    exact ⟨s, h, rfl⟩

theorem mem_addTag_self (l : List String) (t : String) : t ∈ addTag l t := by
  unfold addTag
  by_cases h : listHas l t = true
  · rw [if_pos h]
    exact (listHas_iff l t).mp h
  · rw [if_neg h]
    simp

theorem mem_addTag_of_mem {s : String} (l : List String) (t : String) (h : s ∈ l) :
    s ∈ addTag l t := by
  unfold addTag
  split
  · exact h
  · simp [h]

theorem mem_foldl_rules_of_mem (rules : List (Bool × String)) (acc : List String)
    (t : String) (h : t ∈ acc) :
    t ∈ rules.foldl (fun acc r => if r.1 then addTag acc r.2 else acc) acc := by
  induction rules generalizing acc with
  | nil => exact h
  | cons r rules ih =>
    simp only [List.foldl_cons]
    refine ih _ ?_
    split
    · exact mem_addTag_of_mem _ _ h
    · exact h

theorem mem_foldl_rules_of_rule (rules : List (Bool × String)) (acc : List String)
    (t : String) (h : (true, t) ∈ rules) :
    t ∈ rules.foldl (fun acc r => if r.1 then addTag acc r.2 else acc) acc := by
  induction rules generalizing acc with
  | nil => cases h
  | cons r rules ih =>
    rcases List.mem_cons.mp h with hr | hr
    · simp only [List.foldl_cons, ← hr]
      exact mem_foldl_rules_of_mem _ _ _ (mem_addTag_self acc t)
    · simp only [List.foldl_cons]
      exact ih _ hr

theorem generateTags_mem (fp fn t : String) (h : (true, t) ∈ tagRules fp fn) :
    t ∈ generateTagsFromPath fp fn :=
  mem_foldl_rules_of_rule _ _ _ h

theorem fileScannerScanFolder_out (root : String) (es : List FSTree)
    (st : MemStorage) (now : Nat) :
    (fileScannerScanFolder root es st now).2 = (scanRecursive es root 0 st now).2 := by
  unfold fileScannerScanFolder
  cases getFolderByPath st root with
  | some f => rfl
  | none => exact (scanRecursive_out_state_independent es root 0 _ now st).trans rfl

/-- C9: scanning any tree that contains the supported file at relative path
Characters/hero_lowpoly_v2.fbx — in any sibling position, under any root
path, from any repository state — produces an InsertAsset for that file
whose filetype is .fbx and whose tag set contains fbx, character, lowpoly
and versioned. -/
theorem scan_finds_hero_with_tags (root : String) (pre post inner1 inner2 : List FSTree)
    (stats : Stats) (st : MemStorage) (now : Nat) :
    ∃ ia ∈ (fileScannerScanFolder root
        (pre ++ FSTree.dir "Characters"
          (inner1 ++ FSTree.file "hero_lowpoly_v2.fbx" stats :: inner2) :: post)
        st now).2,
      ia.filetype = ".fbx" ∧ "fbx" ∈ ia.tags.getD [] ∧ "character" ∈ ia.tags.getD [] ∧
      "lowpoly" ∈ ia.tags.getD [] ∧ "versioned" ∈ ia.tags.getD [] := by
  have h0 : ¬ (0 : Nat) > 10 := by omega
  have h1 : ¬ (1 : Nat) > 10 := by omega
  have hcond : ¬ jsStartsWith "Characters" "." = true ∧
      ¬ shouldIgnoreDirectory "Characters" = true := by decide
  -- the asset the walk creates for the hero file
  set FP := jsJoin (jsJoin root "Characters") "hero_lowpoly_v2.fbx" with hFP
  refine ⟨createAssetFromFile FP stats, ?_, ?_⟩
  · -- membership in the walk output
    rw [fileScannerScanFolder_out, List.append_cons, scanRecursive_out_append _ _ _ _ _ _ h0,
      scanRecursive_out_append _ _ _ _ _ _ h0]
    rw [scanRecursive_dir_ok h0 hcond]
    rw [scanRecursive_out_append _ _ _ _ _ _ h1]
    rw [scanRecursive_file h1]
    rw [if_pos (by decide : scannerFileSupported "hero_lowpoly_v2.fbx" = true)]
    simp [hFP]
  · -- the properties of that asset
    have hbase : jsBasename FP = "hero_lowpoly_v2.fbx" := by
      rw [hFP]
      simp only [jsJoin]
      exact jsBasename_append _ _ (by decide)
    have hext : jsToLower (extname FP) = ".fbx" := by
      have he : extname FP = extname "hero_lowpoly_v2.fbx" :=
        extname_congr (hbase.trans (by decide : ("hero_lowpoly_v2.fbx" : String) =
          jsBasename "hero_lowpoly_v2.fbx"))
      rw [he]
      decide
    have hnwe : jsBasenameExt (jsBasename FP) (jsToLower (extname (jsBasename FP))) =
        "hero_lowpoly_v2" := by
      rw [hbase]
      decide
    have hfpdata : (jsToLower FP).data =
        (root.data.map Char.toLower) ++ '/' ::
          ("characters".data ++ '/' :: "hero_lowpoly_v2.fbx".data) := by
      rw [hFP]
      simp only [jsToLower_data, jsJoin, String.data_append]
      have h2 : List.map Char.toLower ("Characters".data) = "characters".data := by decide
      have h3 : List.map Char.toLower ("hero_lowpoly_v2.fbx".data) =
          "hero_lowpoly_v2.fbx".data := by decide
      have h4 : List.map Char.toLower (("/" : String).data) = ['/'] := by decide
      simp [List.map_append, h2, h3, h4]
    have hsplit : jsSplit (jsToLower FP) '/' =
        ((splitSegs '/' (root.data.map Char.toLower)).map (fun l => (⟨l⟩ : String))) ++
          ["characters", "hero_lowpoly_v2.fbx"] := by
      unfold jsSplit
      rw [hfpdata, splitSegs_append_cons]
      have hT : splitSegs '/' ("characters".data ++ '/' :: "hero_lowpoly_v2.fbx".data) =
          ["characters".data, "hero_lowpoly_v2.fbx".data] := by decide
      rw [hT, List.map_append]
      rfl
    have hany : ((jsSplit (jsToLower FP) '/').any
        (fun part => jsIncludes part "character")) = true := by
      refine List.any_eq_true.mpr ⟨"characters", ?_, by decide⟩
      rw [hsplit]
      simp
    have htags : (createAssetFromFile FP stats).tags.getD [] =
        generateTagsFromPath FP "hero_lowpoly_v2" := by
      unfold createAssetFromFile
      simp only [Option.getD_some]
      rw [hnwe]
    refine ⟨?_, ?_, ?_, ?_, ?_⟩
    · show jsToLower (extname (jsBasename FP)) = ".fbx"
      rw [hbase]
      decide
    · rw [htags]
      refine generateTags_mem _ _ _ ?_
      simp only [tagRules]
      rw [hext]
      simp
    · rw [htags]
      refine generateTags_mem _ _ _ ?_
      simp only [tagRules]
      rw [hany]
      simp
    · rw [htags]
      refine generateTags_mem _ _ _ ?_
      simp only [tagRules]
      simp +decide
    · rw [htags]
      refine generateTags_mem _ _ _ ?_
      simp only [tagRules]
      simp +decide

/-! ### C4 -/

/-- An InsertAsset used twice to exhibit the duplicate-filepath defect. -/
def c4Insert : InsertAsset :=
  { filename := "x.obj", filepath := "P:/x.obj", filesize := 1
    filetype := ".obj", lastModified := 0 }

/-- C4 failing input: MemStorage.createAsset performs no filepath-uniqueness
check, so two createAsset calls with the same filepath yield two live Assets
sharing one filepath, although the schema declares filepath unique and the
specification states the invariant. -/
theorem createAsset_breaks_filepath_uniqueness :
    ((createAsset (createAsset emptyStorage c4Insert 0).2 c4Insert 0).2.assets.map
        (fun q => q.2.filepath)) = ["P:/x.obj", "P:/x.obj"] ∧
    ¬ (((createAsset (createAsset emptyStorage c4Insert 0).2 c4Insert 0).2.assets.map
        (fun q => q.2.filepath)).Nodup) := by
  decide

/-! ### C5, counterexample side -/

/-- A single-branch directory chain with one supported file at the bottom:
deepTree n nests the file below n directories. -/
def deepTree : Nat → FSTree
  | 0 => FSTree.file "x.obj" ⟨3, 4, 5⟩
  | n + 1 => FSTree.dir "d" [deepTree n]

/-- The full path of the file at the bottom of deepTree n scanned from p. -/
def deepPath : Nat → String → String
  | 0, p => jsJoin p "x.obj"
  | n + 1, p => deepPath n (jsJoin p "d")

theorem watcherScanFolder_nil (p : String) (st : MemStorage)
    (th : String → Option String) (now : Nat) :
    watcherScanFolder [] p st th now = st := by
  rw [watcherScanFolder.eq_def]

theorem watcherScanFolder_file (name : String) (stats : Stats) (rest : List FSTree)
    (p : String) (st : MemStorage) (th : String → Option String) (now : Nat) :
    watcherScanFolder (FSTree.file name stats :: rest) p st th now =
      watcherScanFolder rest p
        (if is3DFile (jsJoin p name) then processAsset st (jsJoin p name) stats th now
         else st) th now := by
  rw [watcherScanFolder.eq_def]

theorem watcherScanFolder_dir (name : String) (children rest : List FSTree)
    (p : String) (st : MemStorage) (th : String → Option String) (now : Nat) :
    watcherScanFolder (FSTree.dir name children :: rest) p st th now =
      watcherScanFolder rest p
        (watcherScanFolder children (jsJoin p name)
          (match getFolderByPath st (jsJoin p name) with
           | some _ => st
           | none =>
             (createFolder st
               { path := jsJoin p name
                 name := name
                 parentId := (getFolderByPath st p).map Folder.id
                 isWatched := some false
                 lastScanned := some now }).2) th now) th now := by
  rw [watcherScanFolder.eq_def]

theorem getAssetByPath_congr {st st2 : MemStorage} (fp : String)
    (ha : st.assets = st2.assets) : getAssetByPath st fp = getAssetByPath st2 fp := by
  unfold getAssetByPath getAssets
  rw [ha]

/-- processAsset reads and writes only the asset map and the asset id
counter, so its effect on them is the same from any two states agreeing on
them. -/
theorem processAsset_congr (st st2 : MemStorage) (fp : String) (s : Stats)
    (th : String → Option String) (now : Nat)
    (ha : st.assets = st2.assets) (hc : st.currentAssetId = st2.currentAssetId) :
    (processAsset st fp s th now).assets = (processAsset st2 fp s th now).assets ∧
    (processAsset st fp s th now).currentAssetId =
      (processAsset st2 fp s th now).currentAssetId := by
  unfold processAsset
  rw [getAssetByPath_congr fp ha]
  cases getAssetByPath st2 fp with
  | none => simp [createAsset, ha, hc]
  | some asset =>
    dsimp only
    by_cases hm : asset.lastModified < s.mtime
    · rw [if_pos hm, if_pos hm]
      unfold updateAsset
      rw [show mapGet st.assets asset.id = mapGet st2.assets asset.id from by rw [ha]]
      cases mapGet st2.assets asset.id with
      | none => exact ⟨ha, hc⟩
      | some a =>
        refine ⟨?_, ?_⟩
        · dsimp only
          rw [ha]
        · dsimp only
          exact hc
    · rw [if_neg hm, if_neg hm]
      exact ⟨ha, hc⟩

theorem is3DFile_join (p name : String) (h : '/' ∉ name.data) :
    is3DFile (jsJoin p name) = is3DFile name := by
  have he : extname (p ++ "/" ++ name) = extname name :=
    extname_congr ((jsBasename_append p name h).trans (jsBasename_no_slash name h).symm)
  unfold is3DFile jsJoin
  rw [he]

/-- The watcher walk of deepTree n from any path and state ends up applying
the upsert to the single file at the bottom, whatever the nesting depth n —
the walk has no depth cutoff. Folder creation along the way never touches
the asset map or the asset id counter. -/
theorem watcherScanFolder_deepTree (th : String → Option String) (now : Nat) :
    ∀ (n : Nat) (p : String) (st : MemStorage),
      (watcherScanFolder [deepTree n] p st th now).assets =
        (processAsset st (deepPath n p) ⟨3, 4, 5⟩ th now).assets ∧
      (watcherScanFolder [deepTree n] p st th now).currentAssetId =
        (processAsset st (deepPath n p) ⟨3, 4, 5⟩ th now).currentAssetId := by
  intro n
  induction n with
  | zero =>
    intro p st
    rw [show deepTree 0 = FSTree.file "x.obj" ⟨3, 4, 5⟩ from rfl]
    rw [watcherScanFolder_file, watcherScanFolder_nil]
    rw [if_pos ?hsupp]
    case hsupp =>
      rw [is3DFile_join p "x.obj" (by decide)]
      decide
    exact ⟨rfl, rfl⟩
  | succ n ih =>
    intro p st
    rw [show deepTree (n + 1) = FSTree.dir "d" [deepTree n] from rfl]
    rw [watcherScanFolder_dir, watcherScanFolder_nil]
    have hens : (match getFolderByPath st (jsJoin p "d") with
        | some _ => st
        | none =>
          (createFolder st
            { path := jsJoin p "d"
              name := "d"
              parentId := (getFolderByPath st p).map Folder.id
              isWatched := some false
              lastScanned := some now }).2).assets = st.assets ∧
        (match getFolderByPath st (jsJoin p "d") with
        | some _ => st
        | none =>
          (createFolder st
            { path := jsJoin p "d"
              name := "d"
              parentId := (getFolderByPath st p).map Folder.id
              isWatched := some false
              lastScanned := some now }).2).currentAssetId = st.currentAssetId := by
      cases getFolderByPath st (jsJoin p "d") with
      | some f => exact ⟨rfl, rfl⟩
      | none => simp [createFolder]
    have hih := ih (jsJoin p "d")
      (match getFolderByPath st (jsJoin p "d") with
       | some _ => st
       | none =>
         (createFolder st
           { path := jsJoin p "d"
             name := "d"
             parentId := (getFolderByPath st p).map Folder.id
             isWatched := some false
             lastScanned := some now }).2)
    have hcongr := processAsset_congr _ st (deepPath n (jsJoin p "d")) ⟨3, 4, 5⟩ th now
      hens.1 hens.2
    rw [show deepPath (n + 1) p = deepPath n (jsJoin p "d") from rfl]
    exact ⟨hih.1.trans hcongr.1, hih.2.trans hcongr.2⟩

/-- The on-demand scanner on the same single-branch chain yields nothing as
soon as the file sits below the depth bound. -/
theorem scanRecursive_deepTree_out_nil :
    ∀ (n : Nat) (p : String) (d : Nat) (st : MemStorage) (now : Nat),
      10 < d + n → (scanRecursive [deepTree n] p d st now).2 = [] := by
  intro n
  induction n with
  | zero =>
    intro p d st now hd
    rw [show deepTree 0 = FSTree.file "x.obj" ⟨3, 4, 5⟩ from rfl]
    rw [scanRecursive_stop (by omega : d > 10)]
  | succ n ih =>
    intro p d st now hd
    rw [show deepTree (n + 1) = FSTree.dir "d" [deepTree n] from rfl]
    by_cases hgt : d > 10
    · rw [scanRecursive_stop hgt]
    · rw [scanRecursive_dir_ok hgt (by decide)]
      rw [scanRecursive_nil]
      rw [ih (jsJoin p "d") (d + 1) _ now (by omega)]
      rfl

/-- C5 counterexample: on a tree whose only file sits below 11 nested
directories (12 levels below the watch root), the walk the watcher performs
when a root is registered indexes the file — it descends without any depth
bound — while the on-demand scanner's walk, run on the same tree, yields
nothing. The claim that both traversals silently stop 10 levels below the
root is therefore false for the watcher. -/
theorem watcher_walk_has_no_depth_bound :
    ((watcherScanFolder [deepTree 11] "/r" emptyStorage (fun _ => none) 7).assets.map
        (fun q => q.2.filepath)) = ["/r/d/d/d/d/d/d/d/d/d/d/d/x.obj"] ∧
    (fileScannerScanFolder "/r" [deepTree 11] emptyStorage 7).2 = [] := by
  constructor
  · rw [(watcherScanFolder_deepTree (fun _ => none) 7 11 "/r" emptyStorage).1]
    decide
  · rw [fileScannerScanFolder_out]
    exact scanRecursive_deepTree_out_nil 11 "/r" 0 emptyStorage 7 (by omega)

end FieldKit
